import Mathlib

/-!
Verification of the basino Tiny BASIC core: a bounds-checked byte stack, a
circular byte queue, and the Interpretive Language (IL) interpreter built on
them.

The Rust crate (src/rust-basino) wraps a separately compiled primitive
library (`basino_stack_init`, `basino_queue_put`, `basino_il_run`, ...):
the Rust side owns the data structures and maps the primitives' small
integer status codes to typed error kinds, while the behaviour of the
primitives themselves is fixed by the specification's contracts.  Here the
status-code maps are translated from the Rust source, and the primitive
operations are modelled from the specification, with machine addresses as
natural numbers and byte memory as a function from addresses to values.
-/

namespace Basino

/-- The stack error kinds, translated from `ErrorKind` in
src/rust-basino/src/error.rs. -/
inductive ErrorKind where
  | StackOverflow
  | StackUnderflow
  | NullPointer
  | InvalidArguments
  | Unknown
deriving DecidableEq, Repr

/-- The queue error kinds, translated from `ErrorKind` in
src/rust-basino/src/queue.rs. -/
inductive QueueErrorKind where
  | QueueEmpty
  | QueueFull
  | NullPointer
  | InvalidArguments
  | Unknown
deriving DecidableEq, Repr

/-- The interpreter error kinds, translated from `ErrorKind` in
src/rust-basino/src/il.rs. -/
inductive IlErrorKind where
  | StackOverflow
  | NullPointer
  | InvalidArguments
  | InstructionNotFound
  | EndOfProgram
  | Stopped
  | Unknown
deriving DecidableEq, Repr

/-- The interpreter state, translated from `InterpreterState` in
src/rust-basino/src/il.rs. -/
inductive InterpreterState where
  | Running
  | Stopped
  | ExecutingInstruction
deriving DecidableEq, Repr

/-- The stack record, translated from `Stack` in src/rust-basino/src/lib.rs.
Addresses are natural numbers and the byte region is a total memory
function; the `data` field of the Rust struct is never read by any stack
operation and is omitted. -/
structure Stack where
  top_sentinel : Nat
  bottom : Nat
  top : Nat
  mem : Nat → Nat

/-- Modelled from the spec: `basino_stack_init` (the stack-init primitive is
in the separately compiled library, not under src/).  Per the spec it fails
with `NullPointer` if a region address is null, fails with
`InvalidArguments` if `bottom ≥ top_sentinel`, and otherwise binds the
stack with `top = bottom` (empty). -/
def basino_stack_init (top bottom : Nat) : Except ErrorKind Stack :=
  if bottom = 0 ∨ top = 0 then .error .NullPointer
  else if top ≤ bottom then .error .InvalidArguments
  else .ok { top_sentinel := top, bottom := bottom, top := bottom, mem := fun _ => 0 }

/-- Modelled from the spec: `basino_stack_push` (primitive not under src/).
Fails with `StackOverflow` if `top = top_sentinel`; otherwise writes the
value at `top` and advances `top` by one. -/
def basino_stack_push (s : Stack) (value : Nat) : Except ErrorKind Stack :=
  if s.top = s.top_sentinel then .error .StackOverflow
  else .ok { s with mem := fun a => if a = s.top then value else s.mem a, top := s.top + 1 }

/-- Modelled from the spec: `basino_stack_pop` (primitive not under src/).
Fails with `StackUnderflow` if `top = bottom`; otherwise decrements `top`
first and returns the byte at the new `top`. -/
def basino_stack_pop (s : Stack) : Except ErrorKind (Nat × Stack) :=
  if s.top = s.bottom then .error .StackUnderflow
  else .ok (s.mem (s.top - 1), { s with top := s.top - 1 })

/-- Translated from `Stack::new` in src/rust-basino/src/stack.rs: the
caller passes the region's base address and length; the code computes
`len - 1` and `bottom + (len - 1)` in `usize` arithmetic (16-bit on the AVR
target, wrapping in a release build) and calls the init primitive. -/
def Stack.new (bottom len : Nat) : Except ErrorKind Stack :=
  let len1 := (len + 65535) % 65536
  let top := (bottom + len1) % 65536
  basino_stack_init top bottom

/-- A freshly initialized stack over `[bottom, bottom + n)`:
`top = bottom`, `top_sentinel = bottom + n`. -/
def freshStack (bottom n : Nat) : Stack :=
  { top_sentinel := bottom + n, bottom := bottom, top := bottom, mem := fun _ => 0 }

/-- Push a list of values left to right, stopping at the first failure. -/
def pushAll (s : Stack) : List Nat → Except ErrorKind Stack
  | [] => .ok s
  | v :: vs =>
    match basino_stack_push s v with
    | .ok s' => pushAll s' vs
    | .error e => .error e

/-- Pop `n` values, collecting them in order, stopping at the first
failure. -/
def popAll (s : Stack) : Nat → Except ErrorKind (List Nat × Stack)
  | 0 => .ok ([], s)
  | n + 1 =>
    match basino_stack_pop s with
    | .ok (v, s') =>
      match popAll s' n with
      | .ok (vs, s'') => .ok (v :: vs, s'')
      | .error e => .error e
    | .error e => .error e

/-- Well-formed stack: the fill cursor lies between the bounds. -/
def StackWF (s : Stack) : Prop :=
  s.bottom ≤ s.top ∧ s.top ≤ s.top_sentinel

theorem pushAll_spec (vs : List Nat) : ∀ s : Stack,
    s.top + vs.length ≤ s.top_sentinel →
    ∃ s', pushAll s vs = .ok s' ∧
      s'.bottom = s.bottom ∧ s'.top_sentinel = s.top_sentinel ∧
      s'.top = s.top + vs.length ∧
      (∀ a, a < s.top → s'.mem a = s.mem a) ∧
      (∀ i, (h : i < vs.length) → s'.mem (s.top + i) = vs.get ⟨i, h⟩) := by
  induction vs with
  | nil =>
    intro s _
    exact ⟨s, rfl, rfl, rfl, rfl, fun a _ => rfl, fun i h => absurd h (by simp)⟩
  | cons v vs ih =>
    intro s hroom
    have hne : s.top ≠ s.top_sentinel := by
      simp only [List.length_cons] at hroom
      omega
    have hpush : basino_stack_push s v =
        .ok { s with mem := fun a => if a = s.top then v else s.mem a, top := s.top + 1 } := by
      simp [basino_stack_push, hne]
    set s1 : Stack :=
      { s with mem := fun a => if a = s.top then v else s.mem a, top := s.top + 1 } with hs1
    have hroom1 : s1.top + vs.length ≤ s1.top_sentinel := by
      simp only [hs1, List.length_cons] at hroom ⊢
      omega
    obtain ⟨s', hrun, hb, hts, htop, hlow, hvals⟩ := ih s1 hroom1
    refine ⟨s', ?_, ?_, ?_, ?_, ?_, ?_⟩
    · simp [pushAll, hpush, hrun]
    · exact hb
    · exact hts
    · simp only [htop, hs1, List.length_cons]; omega
    · intro a ha
      have := hlow a (by simp only [hs1]; omega)
      simp only [hs1] at this
      rw [this, if_neg (by omega)]
    · intro i hi
      match i with
      | 0 =>
        have := hlow s.top (by simp only [hs1]; omega)
        simp only [hs1] at this
        simpa using this
      | j + 1 =>
        have hj : j < vs.length := by simpa [Nat.succ_lt_succ_iff] using hi
        have := hvals j hj
        simp only [hs1] at this
        have harith : s.top + (j + 1) = s.top + 1 + j := by omega
        rw [harith, this]
        rfl

theorem popAll_spec (n : Nat) : ∀ s : Stack,
    s.bottom + n ≤ s.top →
    popAll s n =
      .ok ((List.range n).map (fun i => s.mem (s.top - 1 - i)), { s with top := s.top - n }) := by
  induction n with
  | zero =>
    intro s _
    simp [popAll]
  | succ n ih =>
    intro s hn
    have hne : s.top ≠ s.bottom := by omega
    have hpop : basino_stack_pop s = .ok (s.mem (s.top - 1), { s with top := s.top - 1 }) := by
      simp [basino_stack_pop, hne]
    have hrec := ih { s with top := s.top - 1 } (by simp; omega)
    simp only [popAll, hpop, hrec]
    refine congrArg Except.ok (Prod.ext ?_ ?_)
    · show s.mem (s.top - 1) :: _ = _
      rw [List.range_succ_eq_map, List.map_cons, List.map_map]
      refine congrArg₂ _ (by simp) (List.map_congr_left ?_)
      intro i _
      show s.mem (s.top - 1 - 1 - i) = s.mem (s.top - 1 - (i + 1))
      congr 1
      omega
    · show ({ s with top := s.top - 1 - n } : Stack) = { s with top := s.top - (n + 1) }
      congr 1
      omega

/-- Popping a stack whose region holds exactly the pushed list returns the
list reversed. -/
theorem range_map_rev (l : List Nat) (b : Nat) (m : Nat → Nat)
    (hvals : ∀ i, (h : i < l.length) → m (b + i) = l.get ⟨i, h⟩) :
    (List.range l.length).map (fun i => m (b + l.length - 1 - i)) = l.reverse := by
  apply List.ext_get
  · simp
  · intro i h1 h2
    simp only [List.get_eq_getElem, List.getElem_map, List.getElem_range,
      List.getElem_reverse]
    have hlen : i < l.length := by simpa using h1
    have harith : b + l.length - 1 - i = b + (l.length - 1 - i) := by omega
    rw [harith, hvals (l.length - 1 - i) (by omega)]
    rfl

/-- Claim C3: for every capacity `N ≥ 1`, a freshly initialized stack
accepts exactly `N` successful pushes, the `(N+1)`-th push fails with
`StackOverflow`, popping then returns all `N` values in reverse push order,
and the `(N+1)`-th pop fails with `StackUnderflow`. -/
theorem stack_fill_drain_lifo (nn bottom : Nat) (vs : List Nat)
    (hn : 1 ≤ nn) (hlen : vs.length = nn) :
    ∃ s' s2,
      pushAll (freshStack bottom nn) vs = .ok s' ∧
      (∀ v, basino_stack_push s' v = .error .StackOverflow) ∧
      popAll s' nn = .ok (vs.reverse, s2) ∧
      basino_stack_pop s2 = .error .StackUnderflow := by
  obtain ⟨s', hrun, hb, hts, htop, _, hvals⟩ :=
    pushAll_spec vs (freshStack bottom nn) (by simp [freshStack, hlen])
  have hb' : s'.bottom = bottom := hb
  have hts' : s'.top_sentinel = bottom + nn := hts
  have htop' : s'.top = bottom + nn := by
    simpa [freshStack, hlen] using htop
  refine ⟨s', { s' with top := s'.top - nn }, hrun, ?_, ?_, ?_⟩
  · intro v
    simp [basino_stack_push, htop', hts']
  · have hdrain := popAll_spec nn s' (by omega)
    rw [hdrain]
    refine congrArg Except.ok (congrArg (fun l => (l, _)) ?_)
    have := range_map_rev vs bottom s'.mem (by
      intro i h
      have := hvals i (by omega)
      simpa [freshStack] using this)
    rw [← hlen, ← this, htop']
    refine List.map_congr_left ?_
    intro i _
    congr 1
    omega
  · simp [basino_stack_pop, htop', hb']

/-- Witness for C3 at capacity 3. -/
theorem stack_fill_drain_lifo_witness :
    1 ≤ 3 ∧ ([5, 7, 9] : List Nat).length = 3 ∧
    ∃ s' s2,
      pushAll (freshStack 16 3) [5, 7, 9] = .ok s' ∧
      (∀ v, basino_stack_push s' v = .error .StackOverflow) ∧
      popAll s' 3 = .ok (([5, 7, 9] : List Nat).reverse, s2) ∧
      basino_stack_pop s2 = .error .StackUnderflow :=
  ⟨by decide, by decide, stack_fill_drain_lifo 3 16 [5, 7, 9] (by decide) (by decide)⟩

/-- Claim C8: for non-null region addresses, stack initialization fails
with `InvalidArguments` iff `bottom ≥ top_sentinel`, and succeeds iff
`top_sentinel ≥ bottom + 1`. -/
theorem stack_init_bounds (top bottom : Nat)
    (hb : bottom ≠ 0) (ht : top ≠ 0) :
    (basino_stack_init top bottom = .error .InvalidArguments ↔ top ≤ bottom) ∧
    ((∃ s, basino_stack_init top bottom = .ok s) ↔ bottom + 1 ≤ top) := by
  constructor
  · constructor
    · intro h
      by_contra hlt
      simp [basino_stack_init, hb, ht, hlt] at h
    · intro h
      simp [basino_stack_init, hb, ht, h]
  · constructor
    · rintro ⟨s, hs⟩
      by_contra hle
      have : top ≤ bottom := by omega
      simp [basino_stack_init, hb, ht, this] at hs
    · intro h
      refine ⟨{ top_sentinel := top, bottom := bottom, top := bottom, mem := fun _ => 0 }, ?_⟩
      simp [basino_stack_init, hb, ht, Nat.not_le.mpr (by omega : bottom < top)]

/-- Witness for C8 at `bottom = 5`: `top = 6` succeeds, `top = 5` is
`InvalidArguments`. -/
theorem stack_init_bounds_witness :
    (basino_stack_init 5 5 = .error .InvalidArguments ↔ 5 ≤ 5) ∧
    ((∃ s, basino_stack_init 6 5 = .ok s) ↔ 5 + 1 ≤ 6) :=
  ⟨(stack_init_bounds 5 5 (by decide) (by decide)).1,
   (stack_init_bounds 6 5 (by decide) (by decide)).2⟩

/-- Claim C10: a construction request violating the capacity invariant
(`top_sentinel ≤ bottom`) fails with an error, and in particular
`Stack::new` on a region of length 0 (so that the `usize` computation
`len - 1` wraps) returns an error rather than succeeding: for any non-null
16-bit base address it yields `InvalidArguments` (or `NullPointer` when the
wrapped sentinel is the null address). -/
theorem stack_new_len_zero_fails (bottom : Nat)
    (h1 : 1 ≤ bottom) (h2 : bottom < 65536) :
    (∀ top bottom', top ≤ bottom' → ∃ e, basino_stack_init top bottom' = .error e) ∧
    (Stack.new bottom 0 = .error .InvalidArguments ∨
      Stack.new bottom 0 = .error .NullPointer) := by
  constructor
  · intro top bottom' hle
    by_cases hz : bottom' = 0 ∨ top = 0
    · exact ⟨.NullPointer, by simp [basino_stack_init, hz]⟩
    · exact ⟨.InvalidArguments, by simp [basino_stack_init, hz, hle]⟩
  · have hlen : (0 + 65535) % 65536 = 65535 := by norm_num
    have htop : (bottom + 65535) % 65536 = bottom - 1 := by omega
    by_cases hb1 : bottom = 1
    · right
      simp [Stack.new, hlen, htop, basino_stack_init, hb1]
    · left
      have hbz : bottom - 1 ≠ 0 := by omega
      simp [Stack.new, hlen, htop, basino_stack_init, hbz, Nat.one_le_iff_ne_zero.mp h1,
        (by omega : bottom - 1 ≤ bottom)]

/-- Witness for C10 at base address 256. -/
theorem stack_new_len_zero_fails_witness :
    (∀ top bottom', top ≤ bottom' → ∃ e, basino_stack_init top bottom' = .error e) ∧
    (Stack.new 256 0 = .error .InvalidArguments ∨
      Stack.new 256 0 = .error .NullPointer) :=
  stack_new_len_zero_fails 256 (by decide) (by decide)

/-- The queue record, translated from `QueueObj` in
src/rust-basino/src/lib.rs.  `qend` is the Rust field `end` (a Lean
keyword); `start` and `end` are the inclusive bounds of the region.  The
`queue` data pointer is never read by any operation and the `last_head`
bookkeeping is internal to the primitive library (the spec fixes only the
observable FIFO behaviour), so both are omitted. -/
structure Queue where
  start : Nat
  qend : Nat
  head : Nat
  tail : Nat
  mem : Nat → Nat

/-- Number of bytes in the region (`end` is inclusive). -/
def Queue.size (q : Queue) : Nat := q.qend + 1 - q.start

/-- Advance an address by one, wrapping from `end` back to `start`. -/
def Queue.next (q : Queue) (p : Nat) : Nat := if p = q.qend then q.start else p + 1

/-- Modelled from the spec: `basino_queue_init` (primitive not under src/).
Fails with `InvalidArguments` if `start > end`; on success
`head = tail = start`. -/
def basino_queue_init (start qend : Nat) : Except QueueErrorKind Queue :=
  if qend < start then .error .InvalidArguments
  else .ok { start := start, qend := qend, head := start, tail := start, mem := fun _ => 0 }

/-- Modelled from the spec: `basino_queue_put` (primitive not under src/).
Fails with `QueueFull` when advancing `tail` would collide with `head`
(one slot stays unusable); otherwise writes at `tail` and advances it with
wraparound. -/
def basino_queue_put (q : Queue) (value : Nat) : Except QueueErrorKind Queue :=
  if q.next q.tail = q.head then .error .QueueFull
  else .ok { q with mem := fun a => if a = q.tail then value else q.mem a,
                    tail := q.next q.tail }

/-- Modelled from the spec: `basino_queue_get` (primitive not under src/).
Fails with `QueueEmpty` when `head = tail`; otherwise reads the byte at
`head` and advances it with wraparound. -/
def basino_queue_get (q : Queue) : Except QueueErrorKind (Nat × Queue) :=
  if q.head = q.tail then .error .QueueEmpty
  else .ok (q.mem q.head, { q with head := q.next q.head })

/-- Well-formed queue: cursors lie inside the region. -/
def QueueWF (q : Queue) : Prop :=
  q.start ≤ q.qend ∧ q.start ≤ q.head ∧ q.head ≤ q.qend ∧
    q.start ≤ q.tail ∧ q.tail ≤ q.qend

/-- Number of pending items: the cyclic distance from `head` to `tail`. -/
def Queue.cnt (q : Queue) : Nat :=
  if q.head ≤ q.tail then q.tail - q.head else q.size - (q.head - q.tail)

/-- Address of the `i`-th pending item, counting from `head` with
wraparound. -/
def Queue.pos (q : Queue) (i : Nat) : Nat :=
  if q.head + i ≤ q.qend then q.head + i else q.head + i - q.size

/-- The pending items in FIFO order. -/
def Queue.absList (q : Queue) : List Nat :=
  (List.range q.cnt).map (fun i => q.mem (q.pos i))

theorem cnt_lt_size (q : Queue) (hwf : QueueWF q) : q.cnt < q.size := by
  obtain ⟨h1, h2, h3, h4, h5⟩ := hwf
  simp only [Queue.cnt, Queue.size]
  split_ifs <;> omega

theorem cnt_zero_iff (q : Queue) (hwf : QueueWF q) : q.cnt = 0 ↔ q.head = q.tail := by
  obtain ⟨h1, h2, h3, h4, h5⟩ := hwf
  simp only [Queue.cnt, Queue.size]
  split_ifs <;> omega

theorem absList_nil (q : Queue) (h : q.cnt = 0) : q.absList = [] := by
  simp [Queue.absList, h]

theorem pos_cnt_eq_tail (q : Queue) (hwf : QueueWF q) : q.pos q.cnt = q.tail := by
  obtain ⟨h1, h2, h3, h4, h5⟩ := hwf
  simp only [Queue.cnt, Queue.pos, Queue.size]
  split_ifs <;> omega

theorem pos_ne_tail (q : Queue) (hwf : QueueWF q) (i : Nat) (hi : i < q.cnt) :
    q.pos i ≠ q.tail := by
  obtain ⟨h1, h2, h3, h4, h5⟩ := hwf
  simp only [Queue.cnt, Queue.size] at hi
  simp only [Queue.pos, Queue.size]
  split_ifs at hi ⊢ <;> omega

theorem pos_zero (q : Queue) (hwf : QueueWF q) : q.pos 0 = q.head := by
  obtain ⟨h1, h2, h3, h4, h5⟩ := hwf
  simp only [Queue.pos]
  split_ifs <;> omega

theorem pos_shift (q : Queue) (hwf : QueueWF q) (i : Nat) (hi : i < q.size) :
    Queue.pos { q with head := q.next q.head } i = q.pos (i + 1) := by
  obtain ⟨h1, h2, h3, h4, h5⟩ := hwf
  simp only [Queue.pos, Queue.next, Queue.size] at hi ⊢
  split_ifs <;> omega

/-- A successful `put` appends the value to the pending list. -/
theorem put_ok (q : Queue) (v : Nat) (hwf : QueueWF q) (hnf : q.cnt + 1 ≠ q.size) :
    ∃ q', basino_queue_put q v = .ok q' ∧ QueueWF q' ∧
      q'.start = q.start ∧ q'.qend = q.qend ∧ q'.head = q.head ∧
      q'.cnt = q.cnt + 1 ∧ q'.absList = q.absList ++ [v] := by
  obtain ⟨h1, h2, h3, h4, h5⟩ := hwf
  have hcnt : q.cnt + 1 ≠ q.size := hnf
  have hne : q.next q.tail ≠ q.head := by
    simp only [Queue.cnt, Queue.size] at hcnt
    simp only [Queue.next]
    split_ifs at hcnt ⊢ <;> omega
  refine ⟨{ q with mem := (fun a => if a = q.tail then v else q.mem a), tail := q.next q.tail }, ?_, ?_, rfl, rfl, rfl, ?_, ?_⟩
  · simp [basino_queue_put, hne]
  · refine ⟨h1, h2, h3, ?_, ?_⟩ <;>
      (show _ ≤ _) <;> (simp only [Queue.next]; split_ifs <;> omega)
  · simp only [Queue.cnt, Queue.next, Queue.size] at hcnt ⊢
    split_ifs at hcnt ⊢ <;> omega
  · have hcnt' : Queue.cnt { q with mem := (fun a => if a = q.tail then v else q.mem a), tail := q.next q.tail } = q.cnt + 1 := by
      simp only [Queue.cnt, Queue.next, Queue.size] at hcnt ⊢
      split_ifs at hcnt ⊢ <;> omega
    simp only [Queue.absList, hcnt', List.range_succ, List.map_append, List.map_cons,
      List.map_nil]
    have hpos : ∀ i : Nat, Queue.pos { q with mem := (fun a => if a = q.tail then v else q.mem a), tail := q.next q.tail } i = q.pos i := fun _ => rfl
    refine congrArg₂ _ (List.map_congr_left ?_) ?_
    · intro i hi
      have hilt : i < q.cnt := List.mem_range.mp hi
      have := pos_ne_tail q ⟨h1, h2, h3, h4, h5⟩ i hilt
      simp only [hpos]
      show (if q.pos i = q.tail then v else q.mem (q.pos i)) = q.mem (q.pos i)
      rw [if_neg this]
    · have := pos_cnt_eq_tail q ⟨h1, h2, h3, h4, h5⟩
      simp only [hpos, this]
      simp

/-- A full queue rejects `put` with `QueueFull`. -/
theorem put_full (q : Queue) (v : Nat) (hwf : QueueWF q) (hfull : q.cnt + 1 = q.size) :
    basino_queue_put q v = .error .QueueFull := by
  obtain ⟨h1, h2, h3, h4, h5⟩ := hwf
  have hne : q.next q.tail = q.head := by
    simp only [Queue.cnt, Queue.size] at hfull
    simp only [Queue.next]
    split_ifs at hfull ⊢ <;> omega
  simp [basino_queue_put, hne]

/-- A successful `get` removes the first pending item and returns it. -/
theorem get_ok (q : Queue) (hwf : QueueWF q) (hne : q.head ≠ q.tail) :
    basino_queue_get q = .ok (q.mem q.head, { q with head := q.next q.head }) ∧
      QueueWF { q with head := q.next q.head } ∧
      Queue.cnt { q with head := q.next q.head } = q.cnt - 1 ∧
      q.absList = q.mem q.head :: Queue.absList { q with head := q.next q.head } := by
  obtain ⟨h1, h2, h3, h4, h5⟩ := hwf
  have hcnt_pos : 1 ≤ q.cnt := by
    rcases Nat.eq_zero_or_pos q.cnt with h | h
    · exact absurd ((cnt_zero_iff q ⟨h1, h2, h3, h4, h5⟩).mp h) hne
    · exact h
  have hwf' : QueueWF { q with head := q.next q.head } := by
    refine ⟨h1, ?_, ?_, h4, h5⟩ <;>
      (show _ ≤ _) <;> (simp only [Queue.next]; split_ifs <;> omega)
  have hcnt' : Queue.cnt { q with head := q.next q.head } = q.cnt - 1 := by
    simp only [Queue.cnt, Queue.next, Queue.size]
    split_ifs <;> omega
  refine ⟨by simp [basino_queue_get, hne], hwf', hcnt', ?_⟩
  have hsplit : q.cnt = (q.cnt - 1) + 1 := by omega
  simp only [Queue.absList, hcnt']
  rw [hsplit, List.range_succ_eq_map, List.map_cons, List.map_map]
  refine congrArg₂ _ ?_ (List.map_congr_left ?_)
  · rw [pos_zero q ⟨h1, h2, h3, h4, h5⟩]
  · intro i hi
    have hilt : i < q.cnt - 1 := List.mem_range.mp hi
    have hsz : i < q.size := by
      have := cnt_lt_size q ⟨h1, h2, h3, h4, h5⟩
      omega
    show q.mem (q.pos (Nat.succ i)) =
      q.mem (Queue.pos { q with head := q.next q.head } i)
    rw [pos_shift q ⟨h1, h2, h3, h4, h5⟩ i hsz]

/-- An empty queue rejects `get` with `QueueEmpty`. -/
theorem get_empty (q : Queue) (h : q.head = q.tail) :
    basino_queue_get q = .error .QueueEmpty := by
  simp [basino_queue_get, h]

/-- Enqueue a list of values left to right, stopping at the first
failure. -/
def putAll (q : Queue) : List Nat → Except QueueErrorKind Queue
  | [] => .ok q
  | v :: vs =>
    match basino_queue_put q v with
    | .ok q' => putAll q' vs
    | .error e => .error e

/-- Dequeue `n` values, collecting them in order, stopping at the first
failure. -/
def getAll (q : Queue) : Nat → Except QueueErrorKind (List Nat × Queue)
  | 0 => .ok ([], q)
  | n + 1 =>
    match basino_queue_get q with
    | .ok (v, q') =>
      match getAll q' n with
      | .ok (vs, q'') => .ok (v :: vs, q'')
      | .error e => .error e
    | .error e => .error e

theorem putAll_spec (vs : List Nat) : ∀ q : Queue, QueueWF q →
    q.cnt + vs.length + 1 ≤ q.size →
    ∃ q', putAll q vs = .ok q' ∧ QueueWF q' ∧
      q'.start = q.start ∧ q'.qend = q.qend ∧ q'.head = q.head ∧
      q'.cnt = q.cnt + vs.length ∧ q'.absList = q.absList ++ vs := by
  induction vs with
  | nil =>
    intro q hwf _
    exact ⟨q, rfl, hwf, rfl, rfl, rfl, rfl, by simp⟩
  | cons v vs ih =>
    intro q hwf hroom
    simp only [List.length_cons] at hroom
    obtain ⟨q1, hput, hwf1, hs1, he1, hh1, hc1, ha1⟩ :=
      put_ok q v hwf (by omega)
    have hsize1 : q1.size = q.size := by simp only [Queue.size, hs1, he1]
    obtain ⟨q', hrun, hwf', hs', he', hh', hc', ha'⟩ :=
      ih q1 hwf1 (by rw [hsize1, hc1]; omega)
    refine ⟨q', ?_, hwf', by rw [hs', hs1], by rw [he', he1], by rw [hh', hh1],
      by rw [hc', hc1]; simp only [List.length_cons]; omega, by rw [ha', ha1]; simp⟩
    simp only [putAll, hput]
    exact hrun

theorem getAll_spec (n : Nat) : ∀ q : Queue, QueueWF q → n = q.cnt →
    ∃ q', getAll q n = .ok (q.absList, q') ∧ QueueWF q' ∧
      q'.head = q'.tail ∧ q'.start = q.start ∧ q'.qend = q.qend ∧
      q'.tail = q.tail := by
  induction n with
  | zero =>
    intro q hwf hcnt
    refine ⟨q, ?_, hwf, (cnt_zero_iff q hwf).mp hcnt.symm, rfl, rfl, rfl⟩
    simp [getAll, absList_nil q hcnt.symm]
  | succ n ih =>
    intro q hwf hcnt
    have hne : q.head ≠ q.tail := by
      intro h
      rw [← cnt_zero_iff q hwf] at h
      omega
    obtain ⟨hget, hwf1, hcnt1, habs⟩ := get_ok q hwf hne
    obtain ⟨q', hrun, hwf', hht', hs', he', ht'⟩ :=
      ih { q with head := q.next q.head } hwf1 (by omega)
    refine ⟨q', ?_, hwf', hht', hs', he', ht'⟩
    simp only [getAll, hget, hrun, habs]

/-- Claim C4: a freshly initialized circular queue over a region of
`M ≥ 2` bytes accepts exactly `M - 1` enqueues, the next `put` fails with
`QueueFull`, dequeuing returns the values in FIFO order, and `get` on the
emptied queue fails with `QueueEmpty`. -/
theorem queue_fill_drain_fifo (m p : Nat) (vs : List Nat)
    (hm : 2 ≤ m) (hlen : vs.length = m - 1) :
    ∃ q0 q1 q2,
      basino_queue_init p (p + (m - 1)) = .ok q0 ∧
      putAll q0 vs = .ok q1 ∧
      (∀ v, basino_queue_put q1 v = .error .QueueFull) ∧
      getAll q1 (m - 1) = .ok (vs, q2) ∧
      basino_queue_get q2 = .error .QueueEmpty := by
  set q0 : Queue :=
    { start := p, qend := p + (m - 1), head := p, tail := p, mem := fun _ => 0 } with hq0
  have hinit : basino_queue_init p (p + (m - 1)) = .ok q0 := by
    simp [basino_queue_init, hq0]
  have hwf0 : QueueWF q0 := by
    refine ⟨?_, ?_, ?_, ?_, ?_⟩ <;> simp [hq0]
  have hsize0 : q0.size = m := by simp only [Queue.size, hq0]; omega
  have hcnt0 : q0.cnt = 0 := by simp [Queue.cnt, hq0]
  obtain ⟨q1, hput, hwf1, hs1, he1, _, hc1, ha1⟩ :=
    putAll_spec vs q0 hwf0 (by rw [hsize0, hcnt0, hlen]; omega)
  have hsize1 : q1.size = m := by rw [Queue.size, hs1, he1, ← Queue.size, hsize0]
  have hcnt1 : q1.cnt = m - 1 := by rw [hc1, hcnt0, hlen]; omega
  have habs1 : q1.absList = vs := by
    rw [ha1, absList_nil q0 hcnt0]; simp
  obtain ⟨q2, hget, hwf2, hht2, _, _, _⟩ :=
    getAll_spec (m - 1) q1 hwf1 hcnt1.symm
  refine ⟨q0, q1, q2, hinit, hput, ?_, ?_, get_empty q2 hht2⟩
  · intro v
    exact put_full q1 v hwf1 (by omega)
  · rw [habs1] at hget
    exact hget

/-- Witness for C4 with a 3-byte region at address 1. -/
theorem queue_fill_drain_fifo_witness :
    2 ≤ 3 ∧ ([21, 42] : List Nat).length = 3 - 1 ∧
    ∃ q0 q1 q2,
      basino_queue_init 1 (1 + (3 - 1)) = .ok q0 ∧
      putAll q0 [21, 42] = .ok q1 ∧
      (∀ v, basino_queue_put q1 v = .error .QueueFull) ∧
      getAll q1 (3 - 1) = .ok ([21, 42], q2) ∧
      basino_queue_get q2 = .error .QueueEmpty :=
  ⟨by decide, by decide, queue_fill_drain_fifo 3 1 [21, 42] (by decide) (by decide)⟩

/-- One fill-then-drain round per input list: enqueue the whole list, then
dequeue the same number of items, collecting each round's output. -/
def runRounds (q : Queue) : List (List Nat) → Except QueueErrorKind (List (List Nat) × Queue)
  | [] => .ok ([], q)
  | vs :: rest =>
    match putAll q vs with
    | .ok q1 =>
      match getAll q1 vs.length with
      | .ok (out, q2) =>
        match runRounds q2 rest with
        | .ok (outs, q3) => .ok (out :: outs, q3)
        | .error e => .error e
      | .error e => .error e
    | .error e => .error e

theorem runRounds_spec (rounds : List (List Nat)) : ∀ q : Queue, QueueWF q →
    q.head = q.tail → (∀ vs ∈ rounds, vs.length + 1 ≤ q.size) →
    ∃ qf, runRounds q rounds = .ok (rounds, qf) ∧ QueueWF qf ∧
      qf.head = qf.tail ∧ qf.start = q.start ∧ qf.qend = q.qend := by
  induction rounds with
  | nil =>
    intro q hwf hempty _
    exact ⟨q, rfl, hwf, hempty, rfl, rfl⟩
  | cons vs rest ih =>
    intro q hwf hempty hfit
    have hcnt0 : q.cnt = 0 := (cnt_zero_iff q hwf).mpr hempty
    obtain ⟨q1, hput, hwf1, hs1, he1, _, hc1, ha1⟩ :=
      putAll_spec vs q hwf (by
        rw [hcnt0]
        have := hfit vs (by simp)
        omega)
    have habs1 : q1.absList = vs := by rw [ha1, absList_nil q hcnt0]; simp
    have hcnt1 : q1.cnt = vs.length := by rw [hc1, hcnt0]; omega
    obtain ⟨q2, hget, hwf2, hht2, hs2, he2, _⟩ :=
      getAll_spec vs.length q1 hwf1 hcnt1.symm
    have hsize2 : q2.size = q.size := by
      rw [Queue.size, hs2, he2, hs1, he1, ← Queue.size]
    obtain ⟨qf, hrun, hwff, hhtf, hsf, hef⟩ :=
      ih q2 hwf2 hht2 (by
        intro ws hws
        rw [hsize2]
        exact hfit ws (by simp [hws]))
    refine ⟨qf, ?_, hwff, hhtf, by rw [hsf, hs2, hs1], by rw [hef, he2, he1]⟩
    rw [habs1] at hget
    simp only [runRounds, hput, hget, hrun]

/-- Claim C5: from a fresh queue, any number of fill-then-drain rounds each
return exactly the enqueued sequence in FIFO order, however often the
cursors wrap past `end`. -/
theorem queue_rounds_fifo (m p : Nat) (rounds : List (List Nat))
    (hm : 2 ≤ m) (hfit : ∀ vs ∈ rounds, vs.length ≤ m - 1) :
    ∃ q0 qf,
      basino_queue_init p (p + (m - 1)) = .ok q0 ∧
      runRounds q0 rounds = .ok (rounds, qf) := by
  set q0 : Queue :=
    { start := p, qend := p + (m - 1), head := p, tail := p, mem := fun _ => 0 } with hq0
  have hinit : basino_queue_init p (p + (m - 1)) = .ok q0 := by
    simp [basino_queue_init, hq0]
  have hwf0 : QueueWF q0 := by
    refine ⟨?_, ?_, ?_, ?_, ?_⟩ <;> simp [hq0]
  have hsize0 : q0.size = m := by simp only [Queue.size, hq0]; omega
  obtain ⟨qf, hrun, _, _, _, _⟩ :=
    runRounds_spec rounds q0 hwf0 rfl (by
      intro vs hvs
      rw [hsize0]
      have := hfit vs hvs
      omega)
  exact ⟨q0, qf, hinit, hrun⟩

/-- Witness for C5: three rounds on a 3-byte region, enough for the
cursors to wrap twice. -/
theorem queue_rounds_fifo_witness :
    2 ≤ 3 ∧ (∀ vs ∈ ([[1, 2], [3, 4], [5, 6]] : List (List Nat)), vs.length ≤ 3 - 1) ∧
    ∃ q0 qf,
      basino_queue_init 1 (1 + (3 - 1)) = .ok q0 ∧
      runRounds q0 [[1, 2], [3, 4], [5, 6]] = .ok ([[1, 2], [3, 4], [5, 6]], qf) :=
  ⟨by decide, by decide,
    queue_rounds_fifo 3 1 [[1, 2], [3, 4], [5, 6]] (by decide) (by decide)⟩

/-- The interpreter record, translated from `Interpreter` in
src/rust-basino/src/il.rs.  The byte-code region is a list of bytes;
`byte_code_ptr` is the fetch cursor as an index into it, so the Rust
`byte_code_end` pointer corresponds to the index `byte_code.length`.  The
bound stack and queue are held by value (the Rust struct holds pointers to
them and mutates them through those pointers). -/
structure Interpreter where
  byte_code : List Nat
  byte_code_ptr : Nat
  state : InterpreterState
  stack : Stack
  queue : Queue

/-- Modelled from the spec: `basino_il_init` (primitive not under src/).
A zero-length byte-code region is rejected with `InvalidArguments`;
otherwise the cursor starts at the first byte and the state is
`Running`. -/
def basino_il_init (byte_code : List Nat) (stack : Stack) (queue : Queue) :
    Except IlErrorKind Interpreter :=
  if byte_code.length = 0 then .error .InvalidArguments
  else .ok { byte_code := byte_code, byte_code_ptr := 0, state := .Running,
             stack := stack, queue := queue }

/-- Modelled from the spec: `basino_il_get_next_bytecode` (primitive not
under src/).  If the cursor has reached `byte_code_end` or the byte at the
cursor is `0x00`, the call fails with `EndOfProgram`, the state becomes
`Stopped` and the cursor does not advance; otherwise the byte is returned
and the cursor advances by one, the state unchanged. -/
def basino_il_get_next_bytecode (it : Interpreter) :
    Except IlErrorKind Nat × Interpreter :=
  if it.byte_code_ptr = it.byte_code.length then
    (.error .EndOfProgram, { it with state := .Stopped })
  else if it.byte_code.getD it.byte_code_ptr 0 = 0 then
    (.error .EndOfProgram, { it with state := .Stopped })
  else
    (.ok (it.byte_code.getD it.byte_code_ptr 0),
      { it with byte_code_ptr := it.byte_code_ptr + 1 })

/-- Modelled from the spec: `basino_il_exec` (primitive not under src/).
Fails immediately with `Stopped` when the state is `Stopped`, touching
nothing.  Otherwise the state becomes `ExecutingInstruction` and the opcode
is dispatched: `0x08` (NO) does nothing; `0x09` (LB) fetches the literal
operand through the same cursor and pushes it onto the bound stack,
reporting `StackOverflow` when the push fails; any other opcode fails with
`InstructionNotFound`.  After a successful dispatch the state returns to
`Running`. -/
def basino_il_exec (it : Interpreter) (opcode : Nat) :
    Except IlErrorKind Unit × Interpreter :=
  if it.state = .Stopped then (.error .Stopped, it)
  else
    let it1 := { it with state := .ExecutingInstruction }
    if opcode = 8 then (.ok (), { it1 with state := .Running })
    else if opcode = 9 then
      match basino_il_get_next_bytecode it1 with
      | (.ok v, it2) =>
        match basino_stack_push it2.stack v with
        | .ok st => (.ok (), { it2 with stack := st, state := .Running })
        | .error _ => (.error .StackOverflow, it2)
      | (.error e, it2) => (.error e, it2)
    else (.error .InstructionNotFound, it1)

/-- The fetch-decode-execute loop body, fuel-bounded.  Each successful
iteration advances the cursor by at least one byte, so
`byte_code.length + 1` units of fuel always suffice. -/
def basino_il_run_loop (it : Interpreter) : Nat → Except IlErrorKind Unit × Interpreter
  | 0 => (.error .Unknown, it)
  | fuel + 1 =>
    if it.state = .Stopped then (.error .Stopped, it)
    else
      match basino_il_get_next_bytecode it with
      | (.error .EndOfProgram, it1) => (.ok (), it1)
      | (.error e, it1) => (.error e, it1)
      | (.ok b, it1) =>
        match basino_il_exec it1 b with
        | (.ok _, it2) => basino_il_run_loop it2 fuel
        | (.error e, it2) => (.error e, it2)

/-- Modelled from the spec: `basino_il_run` (primitive not under src/).
Repeats fetch-then-exec; an `EndOfProgram` fetch failure terminates the
loop successfully, any other failure is returned, and a run started in
state `Stopped` fails immediately with `Stopped`. -/
def basino_il_run (it : Interpreter) : Except IlErrorKind Unit × Interpreter :=
  basino_il_run_loop it (it.byte_code.length + 1)

theorem get_next_bytecode_ok_fields (it it1 : Interpreter) (b : Nat)
    (hf : basino_il_get_next_bytecode it = (.ok b, it1)) :
    it1.state = it.state ∧ it1.stack = it.stack ∧ it1.queue = it.queue := by
  unfold basino_il_get_next_bytecode at hf
  split_ifs at hf
  · simp at hf
  · simp at hf
  · simp only [Prod.mk.injEq] at hf
    obtain ⟨-, h⟩ := hf
    subst h
    exact ⟨rfl, rfl, rfl⟩

/-- Claim C6: while `Running` or `ExecutingInstruction`, fetching fails
with `EndOfProgram` and stops the interpreter exactly when the cursor is at
`byte_code_end` or the byte under it is `0x00`, leaving the cursor in
place; otherwise the byte is returned, the cursor advances by one and the
state is unchanged. -/
theorem il_get_next_bytecode_cases (it : Interpreter)
    (hs : it.state = .Running ∨ it.state = .ExecutingInstruction) :
    ((it.byte_code_ptr = it.byte_code.length ∨ it.byte_code.getD it.byte_code_ptr 0 = 0) →
      basino_il_get_next_bytecode it = (.error .EndOfProgram, { it with state := .Stopped })) ∧
    (¬(it.byte_code_ptr = it.byte_code.length ∨ it.byte_code.getD it.byte_code_ptr 0 = 0) →
      basino_il_get_next_bytecode it =
        (.ok (it.byte_code.getD it.byte_code_ptr 0),
          { it with byte_code_ptr := it.byte_code_ptr + 1 })) := by
  constructor
  · rintro (h | h)
    · unfold basino_il_get_next_bytecode
      rw [if_pos h]
    · unfold basino_il_get_next_bytecode
      by_cases hp : it.byte_code_ptr = it.byte_code.length
      · rw [if_pos hp]
      · rw [if_neg hp, if_pos h]
  · intro h
    push_neg at h
    unfold basino_il_get_next_bytecode
    rw [if_neg h.1, if_neg h.2]

/-- A stopped interpreter bound to a two-byte program, used to exercise
the claims about `Stopped`-state behaviour. -/
def qW : Queue := { start := 1, qend := 2, head := 1, tail := 1, mem := fun _ => 0 }

/-- An interpreter whose cursor has reached `byte_code_end`. -/
def itAtEnd : Interpreter :=
  { byte_code := [8, 8], byte_code_ptr := 2, state := .Running,
    stack := freshStack 4 2, queue := qW }

/-- An interpreter with the cursor on a non-zero byte. -/
def itAtNop : Interpreter :=
  { byte_code := [8, 8], byte_code_ptr := 0, state := .Running,
    stack := freshStack 4 2, queue := qW }

/-- Witness for C6: fetching at the end of `[0x08, 0x08]` fails
`EndOfProgram` and stops; fetching at the start returns `0x08` and
advances. -/
theorem il_get_next_bytecode_cases_witness :
    basino_il_get_next_bytecode itAtEnd =
      (.error .EndOfProgram, { itAtEnd with state := .Stopped }) ∧
    basino_il_get_next_bytecode itAtNop =
      (.ok (itAtNop.byte_code.getD itAtNop.byte_code_ptr 0),
        { itAtNop with byte_code_ptr := itAtNop.byte_code_ptr + 1 }) :=
  ⟨(il_get_next_bytecode_cases itAtEnd (Or.inl rfl)).1 (Or.inl rfl),
   (il_get_next_bytecode_cases itAtNop (Or.inl rfl)).2 (by decide)⟩

/-- Claim C7: `exec` on an interpreter whose state is `Stopped` fails with
the `Stopped` kind for every opcode, and the bound stack and queue are
untouched. -/
theorem il_exec_stopped_frame (it : Interpreter) (opcode : Nat)
    (h : it.state = .Stopped) :
    basino_il_exec it opcode = (.error .Stopped, it) ∧
    (basino_il_exec it opcode).2.stack = it.stack ∧
    (basino_il_exec it opcode).2.queue = it.queue := by
  have hres : basino_il_exec it opcode = (.error .Stopped, it) := by
    simp [basino_il_exec, h]
  exact ⟨hres, by rw [hres], by rw [hres]⟩

/-- Witness for C7 on a stopped interpreter and opcode `0x08`. -/
theorem il_exec_stopped_frame_witness :
    basino_il_exec { itAtNop with state := .Stopped } 8 =
      (.error .Stopped, { itAtNop with state := .Stopped }) ∧
    (basino_il_exec { itAtNop with state := .Stopped } 8).2.stack =
      Interpreter.stack { itAtNop with state := .Stopped } ∧
    (basino_il_exec { itAtNop with state := .Stopped } 8).2.queue =
      Interpreter.queue { itAtNop with state := .Stopped } :=
  il_exec_stopped_frame { itAtNop with state := .Stopped } 8 rfl

/-- `RunIter k it itm` holds when `k` successful fetch-then-exec
iterations of the run loop lead from `it` to `itm`: these are exactly the
states the loop of `basino_il_run it` passes through before starting its
`k+1`-th iteration. -/
inductive RunIter : Nat → Interpreter → Interpreter → Prop where
  | refl (it : Interpreter) : RunIter 0 it it
  | step {k : Nat} {it it1 it2 itm : Interpreter} {b : Nat} :
      it.state ≠ .Stopped →
      basino_il_get_next_bytecode it = (.ok b, it1) →
      basino_il_exec it1 b = (.ok (), it2) →
      RunIter k it2 itm →
      RunIter (k + 1) it itm

theorem fetch_ok_shape (it it1 : Interpreter) (b : Nat)
    (hf : basino_il_get_next_bytecode it = (.ok b, it1)) :
    it1 = { it with byte_code_ptr := it.byte_code_ptr + 1 } ∧
      it.byte_code_ptr < it.byte_code.length := by
  unfold basino_il_get_next_bytecode at hf
  split_ifs at hf with h1 h2
  · simp at hf
  · simp at hf
  · simp only [Prod.mk.injEq] at hf
    refine ⟨hf.2.symm, ?_⟩
    rcases Nat.lt_or_ge it.byte_code_ptr it.byte_code.length with h | h
    · exact h
    · exact absurd (List.getD_eq_default _ _ h) h2

theorem exec_ok_fields (it1 : Interpreter) (b : Nat) (u : Unit) (it2 : Interpreter)
    (hexec : basino_il_exec it1 b = (.ok u, it2)) :
    it2.byte_code = it1.byte_code ∧ it1.byte_code_ptr ≤ it2.byte_code_ptr := by
  simp only [basino_il_exec] at hexec
  split_ifs at hexec with hstop h8 h9
  · simp at hexec
  · simp only [Prod.mk.injEq] at hexec
    obtain ⟨-, h⟩ := hexec
    subst h
    exact ⟨rfl, Nat.le_refl _⟩
  · split at hexec
    · rename_i v itf heq
      split at hexec
      · rename_i st hp
        simp only [Prod.mk.injEq] at hexec
        obtain ⟨-, h⟩ := hexec
        obtain ⟨hshape, -⟩ := fetch_ok_shape _ itf v heq
        subst h
        subst hshape
        exact ⟨rfl, Nat.le_succ _⟩
      · simp at hexec
    · simp at hexec
  · simp at hexec

theorem RunIter_fields (k : Nat) (it itm : Interpreter) (h : RunIter k it itm) :
    itm.byte_code = it.byte_code ∧ it.byte_code_ptr + k ≤ itm.byte_code_ptr := by
  induction h with
  | refl it => exact ⟨rfl, by omega⟩
  | @step k it it1 it2 itm b hne hf hex hrest ih =>
    obtain ⟨hshape, -⟩ := fetch_ok_shape it it1 b hf
    obtain ⟨hbc2, hptr2⟩ := exec_ok_fields it1 b () it2 hex
    obtain ⟨hbcm, hptrm⟩ := ih
    subst hshape
    have hbc2' : it2.byte_code = it.byte_code := hbc2
    have hptr2' : it.byte_code_ptr + 1 ≤ it2.byte_code_ptr := hptr2
    exact ⟨by rw [hbcm, hbc2'], by omega⟩

theorem run_loop_shift (k : Nat) (it itm : Interpreter) (h : RunIter k it itm) :
    ∀ f, basino_il_run_loop it (k + (f + 1)) = basino_il_run_loop itm (f + 1) := by
  induction h with
  | refl it => intro f; rw [Nat.zero_add]
  | @step k it it1 it2 itm b hne hf hex hrest ih =>
    intro f
    have harith : k + 1 + (f + 1) = (k + (f + 1)) + 1 := by omega
    rw [harith, basino_il_run_loop, if_neg hne, hf]
    show (match basino_il_exec it1 b with
      | (Except.ok _, itn) => basino_il_run_loop itn (k + (f + 1))
      | (Except.error e, itn) => ((Except.error e : Except IlErrorKind Unit), itn)) =
      basino_il_run_loop itm (f + 1)
    rw [hex]
    exact ih f

/-- Claim C2: at any point during `run` — after any number of successful
fetch-then-exec iterations — a failure of the dispatched instruction
aborts the loop and is returned to the caller as that exact error kind
(this covers `InstructionNotFound`, `NullPointer`, `InvalidArguments` and
`Stopped`); in particular an LB (`0x09`) instruction whose literal push
finds the bound stack full makes `run` return `StackOverflow`. -/
theorem il_run_propagates_exec_error (k : Nat) (it itm it1 : Interpreter) (b : Nat)
    (hreach : RunIter k it itm)
    (hs : itm.state ≠ .Stopped)
    (hf : basino_il_get_next_bytecode itm = (.ok b, it1)) :
    (∀ e it2, basino_il_exec it1 b = (.error e, it2) →
      (basino_il_run it).1 = .error e) ∧
    (b = 9 → it1.stack.top = it1.stack.top_sentinel →
      ∀ v it2,
        basino_il_get_next_bytecode { it1 with state := .ExecutingInstruction } = (.ok v, it2) →
        (basino_il_run it).1 = .error .StackOverflow) := by
  obtain ⟨hbc, hptr⟩ := RunIter_fields k it itm hreach
  have hlt : itm.byte_code_ptr < itm.byte_code.length := (fetch_ok_shape itm it1 b hf).2
  have hkL : k < it.byte_code.length := by
    rw [hbc] at hlt
    omega
  have hprop : ∀ e it2, basino_il_exec it1 b = (.error e, it2) →
      (basino_il_run it).1 = .error e := by
    intro e it2 hexec
    show (basino_il_run_loop it (it.byte_code.length + 1)).1 = .error e
    have hL : it.byte_code.length + 1 = k + ((it.byte_code.length - k) + 1) := by omega
    rw [hL, run_loop_shift k it itm hreach (it.byte_code.length - k)]
    rw [basino_il_run_loop, if_neg hs, hf]
    show (match basino_il_exec it1 b with
      | (Except.ok _, itn) => basino_il_run_loop itn (it.byte_code.length - k)
      | (Except.error e, itn) =>
        ((Except.error e : Except IlErrorKind Unit), itn)).1 = .error e
    rw [hexec]
  refine ⟨hprop, ?_⟩
  intro hb hfull v it2 hof
  subst hb
  obtain ⟨hst1, -, -⟩ := get_next_bytecode_ok_fields itm it1 9 hf
  obtain ⟨-, hstk2, -⟩ := get_next_bytecode_ok_fields _ it2 v hof
  have hpushfail : basino_stack_push it2.stack v = .error .StackOverflow := by
    unfold basino_stack_push
    rw [hstk2]
    show (if it1.stack.top = it1.stack.top_sentinel then _ else _) = _
    rw [if_pos hfull]
  have hexec : basino_il_exec it1 9 = (.error .StackOverflow, it2) := by
    unfold basino_il_exec
    rw [if_neg (by rw [hst1]; exact hs)]
    show (if (9 : Nat) = 8 then _ else _) = _
    rw [if_neg (by norm_num), if_pos rfl, hof]
    show (match basino_stack_push it2.stack v with
      | Except.ok st =>
        ((Except.ok () : Except IlErrorKind Unit),
          { it2 with stack := st, state := InterpreterState.Running })
      | Except.error _ => (Except.error IlErrorKind.StackOverflow, it2)) =
      (Except.error IlErrorKind.StackOverflow, it2)
    rw [hpushfail]
  exact hprop .StackOverflow it2 hexec

/-- An interpreter over `[0x08, 0x09, 0x05]` whose bound one-byte stack is
already full: the overflow happens on the run's second iteration, after
the NO instruction has executed. -/
def itFull : Interpreter :=
  { byte_code := [8, 9, 5], byte_code_ptr := 0, state := .Running,
    stack := { top_sentinel := 5, bottom := 4, top := 5, mem := fun _ => 0 },
    queue := qW }

/-- Witness for C2: running `itFull` executes the NO, then hits the full
stack on the LB operand push during the second iteration, and `run`
returns `StackOverflow`. -/
theorem il_run_propagates_exec_error_witness :
    (basino_il_run itFull).1 = .error .StackOverflow :=
  (il_run_propagates_exec_error 1 itFull { itFull with byte_code_ptr := 1 }
      { itFull with byte_code_ptr := 2 } 9
      (RunIter.step (by decide) rfl rfl (RunIter.refl { itFull with byte_code_ptr := 1 }))
      (by decide) rfl).2 rfl rfl 5
    { itFull with byte_code_ptr := 3, state := .ExecutingInstruction } rfl

/-- Claim C1: binding the interpreter to `[0x09, 0x76, 0x00]` with a fresh
stack of any capacity `n ≥ 1` (and any queue), `run` returns `Ok`, the
final state is `Stopped`, and a subsequent `pop` on the bound stack
returns `0x76`. -/
theorem il_run_lb_program (bottom n : Nat) (q : Queue) (hn : 1 ≤ n) :
    ∃ it0,
      basino_il_init [9, 118, 0] (freshStack bottom n) q = .ok it0 ∧
      (basino_il_run it0).1 = .ok () ∧
      (basino_il_run it0).2.state = .Stopped ∧
      (basino_stack_pop (basino_il_run it0).2.stack).map Prod.fst = .ok 118 := by
  have hb1 : bottom ≠ bottom + n := by omega
  have hb2 : bottom + 1 ≠ bottom := by omega
  refine ⟨{ byte_code := [9, 118, 0], byte_code_ptr := 0, state := .Running, stack := freshStack bottom n, queue := q }, ?_, ?_, ?_, ?_⟩
  · simp [basino_il_init]
  · simp [basino_il_run, basino_il_run_loop, basino_il_get_next_bytecode, basino_il_exec,
      basino_stack_push, freshStack, hb1]
  · simp [basino_il_run, basino_il_run_loop, basino_il_get_next_bytecode, basino_il_exec,
      basino_stack_push, freshStack, hb1]
  · simp [basino_il_run, basino_il_run_loop, basino_il_get_next_bytecode, basino_il_exec,
      basino_stack_push, basino_stack_pop, freshStack, hb1, hb2, Except.map]

/-- Witness for C1 with a capacity-32 stack at base address 4. -/
theorem il_run_lb_program_witness :
    1 ≤ 32 ∧
    ∃ it0,
      basino_il_init [9, 118, 0] (freshStack 4 32) qW = .ok it0 ∧
      (basino_il_run it0).1 = .ok () ∧
      (basino_il_run it0).2.state = .Stopped ∧
      (basino_stack_pop (basino_il_run it0).2.stack).map Prod.fst = .ok 118 :=
  ⟨by decide, il_run_lb_program 4 32 qW (by decide)⟩

/-- Status-code map of `Stack::new` (src/rust-basino/src/stack.rs): the
result of `basino_stack_init` is matched as 0 / 1 / 2 / wildcard. -/
def stack_new_result (c : Nat) : Except ErrorKind Unit :=
  match c with
  | 0 => .ok ()
  | 1 => .error .NullPointer
  | 2 => .error .InvalidArguments
  | _ => .error .Unknown

/-- Status-code map of `Stack::push` (src/rust-basino/src/stack.rs). -/
def stack_push_result (c : Nat) : Except ErrorKind Unit :=
  match c with
  | 0 => .ok ()
  | 1 => .error .NullPointer
  | 2 => .error .StackOverflow
  | _ => .error .Unknown

/-- Status-code map of `Stack::pop` (src/rust-basino/src/stack.rs): the
code written by the primitive into its out-parameter is matched. -/
def stack_pop_result (c : Nat) : Except ErrorKind Unit :=
  match c with
  | 0 => .ok ()
  | 1 => .error .NullPointer
  | 2 => .error .StackUnderflow
  | _ => .error .Unknown

/-- Status-code map of `Queue::new` (src/rust-basino/src/queue.rs). -/
def queue_new_result (c : Nat) : Except QueueErrorKind Unit :=
  match c with
  | 0 => .ok ()
  | 1 => .error .NullPointer
  | 2 => .error .InvalidArguments
  | _ => .error .Unknown

/-- Status-code map of `Queue::put` (src/rust-basino/src/queue.rs). -/
def queue_put_result (c : Nat) : Except QueueErrorKind Unit :=
  match c with
  | 0 => .ok ()
  | 1 => .error .NullPointer
  | 2 => .error .QueueFull
  | _ => .error .Unknown

/-- Status-code map of `Queue::get` (src/rust-basino/src/queue.rs). -/
def queue_get_result (c : Nat) : Except QueueErrorKind Unit :=
  match c with
  | 0 => .ok ()
  | 1 => .error .NullPointer
  | 2 => .error .QueueEmpty
  | _ => .error .Unknown

/-- Status-code map of `Interpreter::new` (src/rust-basino/src/il.rs). -/
def il_new_result (c : Nat) : Except IlErrorKind Unit :=
  match c with
  | 0 => .ok ()
  | 1 => .error .NullPointer
  | 2 => .error .InvalidArguments
  | _ => .error .Unknown

/-- Status-code map of `Interpreter::get_next_bytecode`
(src/rust-basino/src/il.rs): codes 0, 1 and 3 are matched, everything else
(code 2 included) falls to the wildcard. -/
def il_get_next_bytecode_result (c : Nat) : Except IlErrorKind Unit :=
  match c with
  | 0 => .ok ()
  | 1 => .error .NullPointer
  | 3 => .error .EndOfProgram
  | _ => .error .Unknown

/-- Status-code map of `Interpreter::run` (src/rust-basino/src/il.rs). -/
def il_run_result (c : Nat) : Except IlErrorKind Unit :=
  match c with
  | 0 => .ok ()
  | 1 => .error .NullPointer
  | 2 => .error .InvalidArguments
  | 3 => .error .InstructionNotFound
  | 4 => .error .EndOfProgram
  | 5 => .error .Stopped
  | 6 => .error .Unknown
  | _ => .error .Unknown

/-- Status-code map of `Interpreter::exec` (src/rust-basino/src/il.rs). -/
def il_exec_result (c : Nat) : Except IlErrorKind Unit :=
  match c with
  | 0 => .ok ()
  | 1 => .error .NullPointer
  | 2 => .error .InvalidArguments
  | 3 => .error .InstructionNotFound
  | 4 => .error .Stopped
  | 5 => .error .StackOverflow
  | 6 => .error .Unknown
  | _ => .error .Unknown

/-- Counterexample to C9 as stated: the `get_next_bytecode` wrapper maps
status code 2 to `Unknown`, not to a domain-specific failure kind
(`InvalidArguments` and `StackOverflow` are the only kinds from the
claimed list that exist in the interpreter's error enum, and code 2 maps
to neither). -/
theorem il_get_next_bytecode_code2_unknown :
    il_get_next_bytecode_result 2 = .error .Unknown ∧
    IlErrorKind.Unknown ≠ IlErrorKind.InvalidArguments ∧
    IlErrorKind.Unknown ≠ IlErrorKind.StackOverflow :=
  ⟨rfl, by decide, by decide⟩

/-- Claim C9 (amended): every wrapper maps 0 to success, 1 to
`NullPointer` and unmapped codes to `Unknown`; code 2 maps to the call's
domain-specific failure kind for stack init/push/pop, queue init/put/get,
interpreter init and interpreter run/exec (where it is
`InvalidArguments`), while `get_next_bytecode` leaves code 2 unmapped (it
goes to `Unknown`) and maps code 3 to `EndOfProgram`; `run` and `exec`
additionally map codes 3-6 to the kinds listed in their sources. -/
theorem result_code_maps (c : Nat) :
    (stack_new_result c = if c = 0 then .ok () else if c = 1 then .error .NullPointer
      else if c = 2 then .error .InvalidArguments else .error .Unknown) ∧
    (stack_push_result c = if c = 0 then .ok () else if c = 1 then .error .NullPointer
      else if c = 2 then .error .StackOverflow else .error .Unknown) ∧
    (stack_pop_result c = if c = 0 then .ok () else if c = 1 then .error .NullPointer
      else if c = 2 then .error .StackUnderflow else .error .Unknown) ∧
    (queue_new_result c = if c = 0 then .ok () else if c = 1 then .error .NullPointer
      else if c = 2 then .error .InvalidArguments else .error .Unknown) ∧
    (queue_put_result c = if c = 0 then .ok () else if c = 1 then .error .NullPointer
      else if c = 2 then .error .QueueFull else .error .Unknown) ∧
    (queue_get_result c = if c = 0 then .ok () else if c = 1 then .error .NullPointer
      else if c = 2 then .error .QueueEmpty else .error .Unknown) ∧
    (il_new_result c = if c = 0 then .ok () else if c = 1 then .error .NullPointer
      else if c = 2 then .error .InvalidArguments else .error .Unknown) ∧
    (il_get_next_bytecode_result c = if c = 0 then .ok ()
      else if c = 1 then .error .NullPointer
      else if c = 3 then .error .EndOfProgram else .error .Unknown) ∧
    (il_run_result c = if c = 0 then .ok () else if c = 1 then .error .NullPointer
      else if c = 2 then .error .InvalidArguments
      else if c = 3 then .error .InstructionNotFound
      else if c = 4 then .error .EndOfProgram
      else if c = 5 then .error .Stopped else .error .Unknown) ∧
    (il_exec_result c = if c = 0 then .ok () else if c = 1 then .error .NullPointer
      else if c = 2 then .error .InvalidArguments
      else if c = 3 then .error .InstructionNotFound
      else if c = 4 then .error .Stopped
      else if c = 5 then .error .StackOverflow else .error .Unknown) := by
  rcases c with _ | _ | _ | _ | _ | _ | _ | c <;>
    exact ⟨rfl, rfl, rfl, rfl, rfl, rfl, rfl, rfl, rfl, rfl⟩

end Basino
